import Mathlib

/-!
Shallow embedding of `mqtt-to-influx` (src/main.rs).

Floats (`f64`) are modelled as rationals `ℚ`: every claim settled here is
independent of float rounding (the only arithmetic on values is performed by
the external expression evaluator, which is modelled as an oracle).

External library behaviour (UTF-8 decoding, JSON parsing, JSONPath
evaluation, `str::parse::<f64>`, `evalexpr` evaluation, and the outcome of
the InfluxDB write call) is collected in an `Ext` record of oracles; the
theorems quantify over it, and `extTest` is a concrete instance used by the
witnesses.  A Rust `panic!` is modelled as `none` in an `Option` result.
-/

namespace Bridge

/-- JSON values (`serde_json::Value`). Numbers are modelled as `ℚ`. -/
inductive Json where
  | null
  | bool (b : Bool)
  | num (q : ℚ)
  | str (s : String)
  | arr (xs : List Json)
  | obj (fields : List (String × Json))

/-- `struct InfluxConfig` from main.rs (the `version` field is a `u8`). -/
structure InfluxConfig where
  version : Nat
  url : String
  bucket : String
  org : Option String
  token : Option String

/-- `struct MeasurementConfig` from main.rs; the tag `HashMap` is modelled
as an association list. -/
structure MeasurementConfig where
  name : String
  path : String
  expression : Option String
  tags : Option (List (String × String))

/-- `struct Config` from main.rs. -/
structure Config where
  mqtt_host : String
  mqtt_port : Nat
  mqtt_topic : String
  log_level : Option String
  terminate_on_error : Option Bool
  influxdb : InfluxConfig
  measurements : List MeasurementConfig

/-- `enum InfluxClient`: V1 keeps the url, database and the auth pair
attached by `with_auth`; V2 keeps url, org and token. -/
inductive InfluxClient where
  | V1 (url : String) (bucket : String) (auth : Option (String × String))
  | V2 (url : String) (org : String) (token : String)
deriving DecidableEq

/-- Rust `str::split(sep)` on a character list: splits at every occurrence
of `sep`, keeping empty segments, and yields one (empty) segment for the
empty string. -/
def rustSplit (sep : Char) : List Char → List (List Char)
  | [] => [[]]
  | c :: cs =>
    let rest := rustSplit sep cs
    if c = sep then [] :: rest
    else
      match rest with
      | [] => [[c]]
      | w :: ws => (c :: w) :: ws

/-- `InfluxClient::new` (main.rs lines 46-72).  The Rust function matches on
`config.version`: case 1 builds a V1 client, attaching auth only when the
supplied token splits on a colon into exactly two parts; case 2 builds a V2
client substituting the empty string for a missing org or token
(`unwrap_or("")`); every other version hits `panic!`, modelled as `none`. -/
def InfluxClient.new (config : InfluxConfig) : Option InfluxClient :=
  if config.version = 1 then
    let auth : Option (String × String) :=
      match config.token with
      | some token =>
        match rustSplit ':' token.data with
        | [u, p] => some (⟨u⟩, ⟨p⟩)
        | _ => none
      | none => none
    some (InfluxClient.V1 config.url config.bucket auth)
  else if config.version = 2 then
    some (InfluxClient.V2 config.url (config.org.getD "") (config.token.getD ""))
  else
    none

/-- Result of one `evalexpr` evaluation, as inspected by main.rs lines
177-181: `as_float` succeeds only on a `Float`, `as_int` only on an `Int`;
any other value type leaves the coerced value in place. -/
inductive EvalValue where
  | float (q : ℚ)
  | int (n : ℤ)
  | other
deriving DecidableEq

/-- The arguments of one `InfluxClient::write` call (main.rs line 186). -/
structure WriteCall where
  measurement : String
  value : ℚ
  bucket : String
  tags : Option (List (String × String))
deriving DecidableEq

/-- The error cases `process_message` can return (main.rs lines 154-191):
UTF-8 decode failure, JSON parse failure, an invalid JSONPath, or a failed
write. -/
inductive ProcessError where
  | encoding
  | json
  | path (p : String)
  | write (c : WriteCall)
deriving DecidableEq

/-- Oracles for the external libraries used by main.rs.  `decodeUtf8` is
`std::str::from_utf8`, `parseJson` is `serde_json::from_str`, `findPath`
is `JsonPathFinder::from_str(...).find()` (an `error` is an invalid path
expression; on success the found `Json` is returned), `parseF64` is
`str::parse::<f64>`, `evalExpr s v` is `eval_with_context_mut` of `s` in a
context binding `value` to `v` (`none` is an evaluation error), and
`writeResult` tells whether the awaited InfluxDB write succeeds. -/
structure Ext where
  decodeUtf8 : List Nat → Option String
  parseJson : String → Option Json
  findPath : String → Json → Except String Json
  parseF64 : String → Option ℚ
  evalExpr : String → ℚ → Option EvalValue
  writeResult : WriteCall → Bool

/-- `found.as_array().and_then(|a| a.first())` (main.rs line 164):
`as_array` succeeds only on an array, `first` takes its head. -/
def firstMatch : Json → Option Json
  | Json.arr (x :: _) => some x
  | _ => none

/-- Numeric coercion (main.rs lines 165-171): a number is used directly
(`as_f64` never fails on a `serde_json` number), a string is parsed with
parse failure yielding `0.0`, and everything else hits `continue`,
modelled as `none`. -/
def coerce (parseF64 : String → Option ℚ) : Json → Option ℚ
  | Json.num q => some q
  | Json.str s => some ((parseF64 s).getD 0)
  | _ => none

/-- The expression step (main.rs lines 173-183): evaluate the expression in
a one-variable context binding `value` to `v` (`HashMapContext::set_value`
on a fresh context always succeeds, so its `?` never fires); a `Float`
result replaces the value, an `Int` result is converted to float and
replaces it, and any other result or an evaluation error keeps `v`. -/
def applyExpression (evalExpr : String → ℚ → Option EvalValue) (expr : String) (v : ℚ) : ℚ :=
  match evalExpr expr v with
  | some (EvalValue.float f) => f
  | some (EvalValue.int i) => (i : ℚ)
  | some EvalValue.other => v
  | none => v

/-- The value finally written for a definition: the coerced value, passed
through the expression step when an expression is configured. -/
def finalValue (evalExpr : String → ℚ → Option EvalValue) (m : MeasurementConfig) (v : ℚ) : ℚ :=
  match m.expression with
  | some expr => applyExpression evalExpr expr v
  | none => v

/-- The per-definition loop of `process_message` (main.rs lines 158-188),
with the list of issued write calls made explicit.  For each definition in
order: an invalid path fails the whole call; no first match or a
non-number/non-string value skips the definition; otherwise the coerced
value is put through the expression step and written, a failed write
aborting the remaining definitions. -/
def processDefs (ext : Ext) (bucket : String) (json : Json) :
    List MeasurementConfig → List WriteCall → Except ProcessError Unit × List WriteCall
  | [], acc => (Except.ok (), acc)
  | m :: rest, acc =>
    match ext.findPath m.path json with
    | Except.error _ => (Except.error (ProcessError.path m.path), acc)
    | Except.ok found =>
      match firstMatch found with
      | none => processDefs ext bucket json rest acc
      | some val =>
        match coerce ext.parseF64 val with
        | none => processDefs ext bucket json rest acc
        | some v0 =>
          let call : WriteCall :=
            ⟨m.name, finalValue ext.evalExpr m v0, bucket, m.tags⟩
          if ext.writeResult call then
            processDefs ext bucket json rest (acc ++ [call])
          else
            (Except.error (ProcessError.write call), acc ++ [call])

/-- `process_message` (main.rs lines 154-191): decode the payload as UTF-8,
parse it as JSON, then run the per-definition loop. -/
def process_message (ext : Ext) (payload : List Nat) (config : Config) :
    Except ProcessError Unit × List WriteCall :=
  match ext.decodeUtf8 payload with
  | none => (Except.error ProcessError.encoding, [])
  | some s =>
    match ext.parseJson s with
    | none => (Except.error ProcessError.json, [])
    | some json => processDefs ext config.influxdb.bucket json config.measurements []

/-- The write call a single definition gives rise to, read off the same
case split as `processDefs`: `none` when the definition is skipped or the
path is invalid, `some call` when a write is issued. -/
def defWrite (ext : Ext) (bucket : String) (json : Json) (m : MeasurementConfig) :
    Option WriteCall :=
  match ext.findPath m.path json with
  | Except.error _ => none
  | Except.ok found =>
    match firstMatch found with
    | none => none
    | some val =>
      match coerce ext.parseF64 val with
      | none => none
      | some v0 => some ⟨m.name, finalValue ext.evalExpr m v0, bucket, m.tags⟩

/-- One event delivered by `eventloop.poll()` (main.rs lines 132-150):
an incoming publish packet, any other successful event, or a
transport-level error. -/
inductive LoopEvent where
  | publish (payload : List Nat)
  | otherOk
  | connErr (e : String)

/-- Observable actions of the event loop: a message processed (with the
result of `process_message`) and a `tokio::time::sleep` of a number of
seconds. -/
inductive Action where
  | processed (payload : List Nat) (result : Except ProcessError Unit)
  | sleep (secs : Nat)

/-- How a run of the event loop can terminate: the error returned when
`terminate_on_error` fires on a processing failure or on a transport
error. -/
inductive LoopError where
  | processErr (e : ProcessError)
  | transportErr (e : String)
deriving DecidableEq

/-- The event loop (main.rs lines 130-151) run over a finite trace of
polled events; `none` as the second component means the loop is still
connected after consuming the trace.  A publish packet is processed; on
failure the error is logged and, when `terminate_on_error` (defaulting to
false, line 130) is set, returned.  Other events are ignored.  A transport
error terminates when the flag is set and otherwise sleeps 5 seconds and
continues. -/
def runLoop (ext : Ext) (config : Config) :
    List LoopEvent → List Action × Option LoopError
  | [] => ([], none)
  | ev :: rest =>
    match ev with
    | LoopEvent.publish payload =>
      match (process_message ext payload config).1 with
      | Except.ok _ =>
        let next := runLoop ext config rest
        (Action.processed payload (Except.ok ()) :: next.1, next.2)
      | Except.error e =>
        if config.terminate_on_error.getD false then
          ([Action.processed payload (Except.error e)], some (LoopError.processErr e))
        else
          let next := runLoop ext config rest
          (Action.processed payload (Except.error e) :: next.1, next.2)
    | LoopEvent.otherOk => runLoop ext config rest
    | LoopEvent.connErr e =>
      if config.terminate_on_error.getD false then
        ([], some (LoopError.transportErr e))
      else
        let next := runLoop ext config rest
        (Action.sleep 5 :: next.1, next.2)

/-- A concrete oracle instance used by the witnesses. -/
def extTest : Ext where
  decodeUtf8 := fun _ => some "payload"
  parseJson := fun _ => some (Json.obj [])
  findPath := fun path json =>
    if path = "$.bad[" then Except.error "unclosed bracket"
    else if path = "$.none" then Except.ok (Json.arr [])
    else if path = "$.text" then Except.ok (Json.arr [Json.str "42.5"])
    else if path = "$.flag" then Except.ok (Json.arr [Json.bool true])
    else Except.ok (Json.arr [Json.num 7, json])
  parseF64 := fun s => if s = "42.5" then some 42.5 else none
  evalExpr := fun e v => if e = "value * 2" then some (EvalValue.float (2 * v)) else none
  writeResult := fun c => if c.measurement = "failme" then false else true

/-- A concrete measurement definition used by the witnesses. -/
def mTemp : MeasurementConfig :=
  ⟨"temperature", "$.temp", none, none⟩

/-- A concrete configuration used by the witnesses. -/
def cfgTest : Config :=
  ⟨"localhost", 1883, "sensors", none, none,
    ⟨2, "http://localhost:8086", "db", none, none⟩, [mTemp]⟩

/-- A definition whose write fails under `extTest`. -/
def mFail : MeasurementConfig :=
  ⟨"failme", "$.temp", none, none⟩

/-- A configuration (no `terminate_on_error` entry) whose single
measurement write fails under `extTest`. -/
def cfgFail : Config :=
  ⟨"localhost", 1883, "sensors", none, none,
    ⟨2, "http://localhost:8086", "db", none, none⟩, [mFail]⟩

/-- A configuration with `terminate_on_error = true`. -/
def cfgTerm : Config :=
  ⟨"localhost", 1883, "sensors", none, some true,
    ⟨2, "http://localhost:8086", "db", none, none⟩, [mFail]⟩

/-- Claim C1, counterexample: with the destination version set to 3 —
neither 1 nor 2 — `InfluxClient::new` reaches the `panic!` arm (modelled
as `none`); it does not return a recoverable `ConfigError` value, so
construction does not "never panic". -/
theorem influx_new_version3_panics :
    InfluxClient.new ⟨3, "http://localhost:8086", "db", none, none⟩ = none := rfl

/-- Claim C1, amended: for every destination settings whose version is
neither 1 nor 2, `InfluxClient::new` panics (`none` in the model) instead
of returning a recoverable configuration error. -/
theorem influx_new_bad_version_panics (c : InfluxConfig)
    (h1 : c.version ≠ 1) (h2 : c.version ≠ 2) :
    InfluxClient.new c = none := by
  simp [InfluxClient.new, h1, h2]

/-- Witness for `influx_new_bad_version_panics` at version 7. -/
theorem influx_new_bad_version_panics_witness :
    InfluxClient.new ⟨7, "http://h", "b", none, some "t"⟩ = none :=
  influx_new_bad_version_panics ⟨7, "http://h", "b", none, some "t"⟩
    (by decide) (by decide)

/-- Claim C10: for version 2, a missing org or token (or both) is replaced
by the empty string and construction succeeds; for version 1, a token that
does not split on a colon into exactly two parts yields a client with no
auth attached, silently. -/
theorem client_construction_leniency :
    (∀ url bucket org token, InfluxClient.new ⟨2, url, bucket, org, token⟩ =
        some (InfluxClient.V2 url (org.getD "") (token.getD ""))) ∧
    (∀ url bucket token, InfluxClient.new ⟨2, url, bucket, none, token⟩ =
        some (InfluxClient.V2 url "" (token.getD ""))) ∧
    (∀ url bucket org, InfluxClient.new ⟨2, url, bucket, org, none⟩ =
        some (InfluxClient.V2 url (org.getD "") "")) ∧
    (∀ url bucket org t, (rustSplit ':' (String.data t)).length ≠ 2 →
        InfluxClient.new ⟨1, url, bucket, org, some t⟩ =
          some (InfluxClient.V1 url bucket none)) := by
  refine ⟨?_, ?_, ?_, ?_⟩
  · intro url bucket org token
    simp [InfluxClient.new]
  · intro url bucket token
    simp [InfluxClient.new]
  · intro url bucket org
    simp [InfluxClient.new]
  · intro url bucket org t h
    cases hs : rustSplit ':' t.data with
    | nil => simp [InfluxClient.new, hs]
    | cons a l =>
      cases l with
      | nil => simp [InfluxClient.new, hs]
      | cons b l2 =>
        cases l2 with
        | nil => rw [hs] at h; simp at h
        | cons c l3 => simp [InfluxClient.new, hs]

/-- Witness for `client_construction_leniency`: version 2 with both org
and token absent, and version 1 with a colon-free token. -/
theorem client_construction_leniency_witness :
    InfluxClient.new ⟨2, "http://h", "b", none, none⟩ =
      some (InfluxClient.V2 "http://h" "" "") ∧
    InfluxClient.new ⟨1, "http://h", "b", none, some "abc"⟩ =
      some (InfluxClient.V1 "http://h" "b" none) :=
  ⟨client_construction_leniency.1 "http://h" "b" none none,
   client_construction_leniency.2.2.2 "http://h" "b" none "abc" (by decide)⟩

/-- Claim C2: when a definition has an expression and evaluating it (with
`value` bound to the coerced value `v0`) fails, the value written is `v0`
unchanged and the expression step produces no error: processing proceeds
directly to the write. -/
theorem expression_failure_keeps_value
    (ext : Ext) (bucket : String) (json : Json) (m : MeasurementConfig)
    (rest : List MeasurementConfig) (acc : List WriteCall)
    (found val : Json) (v0 : ℚ) (expr : String)
    (hfind : ext.findPath m.path json = Except.ok found)
    (hmatch : firstMatch found = some val)
    (hcoerce : coerce ext.parseF64 val = some v0)
    (hexpr : m.expression = some expr)
    (heval : ext.evalExpr expr v0 = none) :
    processDefs ext bucket json (m :: rest) acc =
      (if ext.writeResult ⟨m.name, v0, bucket, m.tags⟩ then
         processDefs ext bucket json rest (acc ++ [⟨m.name, v0, bucket, m.tags⟩])
       else
         (Except.error (ProcessError.write ⟨m.name, v0, bucket, m.tags⟩),
          acc ++ [⟨m.name, v0, bucket, m.tags⟩])) := by
  have hv : finalValue ext.evalExpr m v0 = v0 := by
    simp [finalValue, hexpr, applyExpression, heval]
  simp [processDefs, hfind, hmatch, hcoerce, hv]

/-- Witness for `expression_failure_keeps_value`: under `extTest` the
expression "boom" fails to evaluate and the coerced value 7 is written. -/
theorem expression_failure_keeps_value_witness :
    processDefs extTest "db" (Json.obj []) [⟨"t", "$.temp", some "boom", none⟩] [] =
      (if extTest.writeResult ⟨"t", 7, "db", none⟩ then
         processDefs extTest "db" (Json.obj []) [] ([] ++ [⟨"t", 7, "db", none⟩])
       else
         (Except.error (ProcessError.write ⟨"t", 7, "db", none⟩),
          [] ++ [⟨"t", 7, "db", none⟩])) :=
  expression_failure_keeps_value extTest "db" (Json.obj [])
    ⟨"t", "$.temp", some "boom", none⟩ [] []
    (Json.arr [Json.num 7, Json.obj []]) (Json.num 7) 7 "boom"
    rfl rfl rfl rfl rfl

/-- Claim C3: numeric coercion uses a number directly; a string is parsed
as a float, an unparseable string yielding 0.0 without error; any other
value (object, array, boolean, null) coerces to `none`, and such a
definition is skipped by `processDefs` with no write and no error. -/
theorem coercion_semantics :
    (∀ (p : String → Option ℚ) (q : ℚ), coerce p (Json.num q) = some q) ∧
    (∀ (p : String → Option ℚ) (s : String) (f : ℚ),
       p s = some f → coerce p (Json.str s) = some f) ∧
    (∀ (p : String → Option ℚ) (s : String),
       p s = none → coerce p (Json.str s) = some 0) ∧
    (∀ (p : String → Option ℚ) (v : Json),
       (∀ q, v ≠ Json.num q) → (∀ s, v ≠ Json.str s) → coerce p v = none) ∧
    (∀ (ext : Ext) (bucket : String) (json : Json) (m : MeasurementConfig)
       (rest : List MeasurementConfig) (acc : List WriteCall) (found val : Json),
       ext.findPath m.path json = Except.ok found →
       firstMatch found = some val →
       coerce ext.parseF64 val = none →
       processDefs ext bucket json (m :: rest) acc = processDefs ext bucket json rest acc) := by
  refine ⟨?_, ?_, ?_, ?_, ?_⟩
  · intro p q; rfl
  · intro p s f h; simp [coerce, h]
  · intro p s h; simp [coerce, h]
  · intro p v h1 h2
    cases v with
    | num q => exact absurd rfl (h1 q)
    | str s => exact absurd rfl (h2 s)
    | null => rfl
    | bool b => rfl
    | arr xs => rfl
    | obj fields => rfl
  · intro ext bucket json m rest acc found val hfind hmatch hcoerce
    simp [processDefs, hfind, hmatch, hcoerce]

/-- Witness for `coercion_semantics`: "42.5" parses to 42.5, "abc" falls
back to 0, and a boolean match makes `processDefs` skip the definition. -/
theorem coercion_semantics_witness :
    coerce extTest.parseF64 (Json.str "42.5") = some 42.5 ∧
    coerce extTest.parseF64 (Json.str "abc") = some 0 ∧
    processDefs extTest "db" (Json.obj []) [⟨"t", "$.flag", none, none⟩] [] =
      processDefs extTest "db" (Json.obj []) [] [] :=
  ⟨coercion_semantics.2.1 extTest.parseF64 "42.5" 42.5 rfl,
   coercion_semantics.2.2.1 extTest.parseF64 "abc" rfl,
   coercion_semantics.2.2.2.2 extTest "db" (Json.obj [])
     ⟨"t", "$.flag", none, none⟩ [] [] (Json.arr [Json.bool true]) (Json.bool true)
     rfl rfl rfl⟩

/-- Claim C6: a definition whose path query is syntactically invalid fails
the whole `process` call immediately with a path error; the accumulated
writes are unchanged (no coercion or write for this definition) and, the
result being the same for every list of later definitions, nothing after
it is touched. -/
theorem invalid_path_fails_process
    (ext : Ext) (bucket : String) (json : Json) (m : MeasurementConfig)
    (rest : List MeasurementConfig) (acc : List WriteCall) (e : String)
    (hfind : ext.findPath m.path json = Except.error e) :
    processDefs ext bucket json (m :: rest) acc =
      (Except.error (ProcessError.path m.path), acc) := by
  simp [processDefs, hfind]

/-- Witness for `invalid_path_fails_process`: the path "$.bad[" is
rejected by `extTest` and the whole call fails with a path error even
though a later definition would have matched. -/
theorem invalid_path_fails_process_witness :
    processDefs extTest "db" (Json.obj []) [⟨"t", "$.bad[", none, none⟩, mTemp] [] =
      (Except.error (ProcessError.path "$.bad["), []) :=
  invalid_path_fails_process extTest "db" (Json.obj [])
    ⟨"t", "$.bad[", none, none⟩ [mTemp] [] "unclosed bracket" rfl

/-- Helper: the writes accumulated by `processDefs` extend the incoming
accumulator on the right. -/
theorem processDefs_append (ext : Ext) (bucket : String) (json : Json) :
    ∀ (defs : List MeasurementConfig) (acc : List WriteCall),
      (processDefs ext bucket json defs acc).2 =
        acc ++ (processDefs ext bucket json defs []).2 := by
  intro defs
  induction defs with
  | nil => intro acc; simp [processDefs]
  | cons m rest ih =>
    intro acc
    cases hf : ext.findPath m.path json with
    | error s => simp [processDefs, hf]
    | ok found =>
      cases hm : firstMatch found with
      | none => simp only [processDefs, hf, hm]; rw [ih acc]
      | some val =>
        cases hc : coerce ext.parseF64 val with
        | none => simp only [processDefs, hf, hm, hc]; rw [ih acc]
        | some v0 =>
          by_cases hw :
              ext.writeResult ⟨m.name, finalValue ext.evalExpr m v0, bucket, m.tags⟩ = true
          · have key := ih
              (acc ++ [(⟨m.name, finalValue ext.evalExpr m v0, bucket, m.tags⟩ : WriteCall)])
            have key2 := ih
              ([(⟨m.name, finalValue ext.evalExpr m v0, bucket, m.tags⟩ : WriteCall)])
            simp only [processDefs, hf, hm, hc, hw, if_true, List.nil_append]
            rw [key, key2]
            simp
          · simp only [processDefs, hf, hm, hc, hw, if_false, Bool.false_eq_true]
            simp

/-- Claim C5: a definition whose (syntactically valid) path query yields
no match is skipped silently; when every definition of the list is skipped
this way, `processDefs` succeeds with no writes; and under the same
condition `process_message` returns success with no writes. -/
theorem no_match_skips :
    (∀ (ext : Ext) (bucket : String) (json : Json) (m : MeasurementConfig)
       (rest : List MeasurementConfig) (acc : List WriteCall) (found : Json),
       ext.findPath m.path json = Except.ok found →
       firstMatch found = none →
       processDefs ext bucket json (m :: rest) acc = processDefs ext bucket json rest acc) ∧
    (∀ (ext : Ext) (bucket : String) (json : Json) (defs : List MeasurementConfig)
       (acc : List WriteCall),
       (∀ m ∈ defs, ∃ found,
          ext.findPath m.path json = Except.ok found ∧ firstMatch found = none) →
       processDefs ext bucket json defs acc = (Except.ok (), acc)) ∧
    (∀ (ext : Ext) (config : Config) (payload : List Nat) (s : String) (json : Json),
       ext.decodeUtf8 payload = some s →
       ext.parseJson s = some json →
       (∀ m ∈ config.measurements, ∃ found,
          ext.findPath m.path json = Except.ok found ∧ firstMatch found = none) →
       process_message ext payload config = (Except.ok (), [])) := by
  have skip : ∀ (ext : Ext) (bucket : String) (json : Json) (m : MeasurementConfig)
      (rest : List MeasurementConfig) (acc : List WriteCall) (found : Json),
      ext.findPath m.path json = Except.ok found →
      firstMatch found = none →
      processDefs ext bucket json (m :: rest) acc = processDefs ext bucket json rest acc := by
    intro ext bucket json m rest acc found hf hm
    simp [processDefs, hf, hm]
  have allskip : ∀ (ext : Ext) (bucket : String) (json : Json)
      (defs : List MeasurementConfig) (acc : List WriteCall),
      (∀ m ∈ defs, ∃ found,
         ext.findPath m.path json = Except.ok found ∧ firstMatch found = none) →
      processDefs ext bucket json defs acc = (Except.ok (), acc) := by
    intro ext bucket json defs
    induction defs with
    | nil => intro acc _; rfl
    | cons m rest ih =>
      intro acc h
      obtain ⟨found, hf, hm⟩ := h m (List.mem_cons_self m rest)
      rw [skip ext bucket json m rest acc found hf hm]
      exact ih acc (fun m2 hm2 => h m2 (List.mem_cons_of_mem _ hm2))
  refine ⟨skip, allskip, ?_⟩
  intro ext config payload s json hdec hparse h
  simp only [process_message, hdec, hparse]
  exact allskip ext config.influxdb.bucket json config.measurements [] h

/-- Witness for `no_match_skips`: under `extTest` the path "$.none"
matches nothing, the definition is skipped, and the whole message
processes to success with zero writes. -/
theorem no_match_skips_witness :
    process_message extTest [] ⟨"localhost", 1883, "sensors", none, none,
        ⟨2, "http://localhost:8086", "db", none, none⟩,
        [⟨"t", "$.none", none, none⟩]⟩ = (Except.ok (), []) :=
  no_match_skips.2.2 extTest
    ⟨"localhost", 1883, "sensors", none, none,
      ⟨2, "http://localhost:8086", "db", none, none⟩, [⟨"t", "$.none", none, none⟩]⟩
    [] "payload" (Json.obj []) rfl rfl
    (by
      intro m hm
      simp only [List.mem_singleton] at hm
      subst hm
      exact ⟨Json.arr [], rfl, rfl⟩)

/-- Claim C4: when the write for a definition fails, `processDefs` returns
that write error at once — the result does not depend on the remaining
definitions, so no path evaluation, coercion or write happens for them;
and every error `processDefs` can return is a path error or a write error,
so a failed write is the only per-definition runtime failure that aborts
the siblings. -/
theorem write_failure_aborts :
    (∀ (ext : Ext) (bucket : String) (json : Json) (m : MeasurementConfig)
       (rest : List MeasurementConfig) (acc : List WriteCall) (found val : Json) (v0 : ℚ),
       ext.findPath m.path json = Except.ok found →
       firstMatch found = some val →
       coerce ext.parseF64 val = some v0 →
       ext.writeResult ⟨m.name, finalValue ext.evalExpr m v0, bucket, m.tags⟩ = false →
       processDefs ext bucket json (m :: rest) acc =
         (Except.error (ProcessError.write
             ⟨m.name, finalValue ext.evalExpr m v0, bucket, m.tags⟩),
          acc ++ [⟨m.name, finalValue ext.evalExpr m v0, bucket, m.tags⟩])) ∧
    (∀ (ext : Ext) (bucket : String) (json : Json) (defs : List MeasurementConfig)
       (acc : List WriteCall) (e : ProcessError),
       (processDefs ext bucket json defs acc).1 = Except.error e →
       (∃ p, e = ProcessError.path p) ∨ (∃ c, e = ProcessError.write c)) := by
  constructor
  · intro ext bucket json m rest acc found val v0 hf hm hc hw
    simp [processDefs, hf, hm, hc, hw]
  · intro ext bucket json defs acc e h
    induction defs generalizing acc with
    | nil => simp [processDefs] at h
    | cons m rest ih =>
      cases hf : ext.findPath m.path json with
      | error s =>
        simp only [processDefs, hf] at h
        exact Or.inl ⟨m.path, (Except.error.injEq _ _).mp h.symm⟩
      | ok found =>
        cases hm : firstMatch found with
        | none =>
          simp only [processDefs, hf, hm] at h
          exact ih acc h
        | some val =>
          cases hc : coerce ext.parseF64 val with
          | none =>
            simp only [processDefs, hf, hm, hc] at h
            exact ih acc h
          | some v0 =>
            by_cases hw :
                ext.writeResult ⟨m.name, finalValue ext.evalExpr m v0, bucket, m.tags⟩ = true
            · simp only [processDefs, hf, hm, hc, hw, if_true] at h
              exact ih _ h
            · simp only [processDefs, hf, hm, hc, hw, if_false, Bool.false_eq_true] at h
              exact Or.inr ⟨_, (Except.error.injEq _ _).mp h.symm⟩

/-- Witness for `write_failure_aborts`: under `extTest` the "failme" write
fails and processing aborts with the write error, leaving a later
definition untouched; that error is a write error. -/
theorem write_failure_aborts_witness :
    processDefs extTest "db" (Json.obj []) [mFail, mTemp] [] =
      (Except.error (ProcessError.write ⟨"failme", 7, "db", none⟩),
       [] ++ [⟨"failme", 7, "db", none⟩]) ∧
    ((∃ p, ProcessError.write (⟨"failme", 7, "db", none⟩ : WriteCall) = ProcessError.path p) ∨
     (∃ c, ProcessError.write (⟨"failme", 7, "db", none⟩ : WriteCall) = ProcessError.write c)) :=
  ⟨write_failure_aborts.1 extTest "db" (Json.obj []) mFail [mTemp] []
      (Json.arr [Json.num 7, Json.obj []]) (Json.num 7) 7 rfl rfl rfl rfl,
   write_failure_aborts.2 extTest "db" (Json.obj []) [mFail, mTemp] []
      (ProcessError.write ⟨"failme", 7, "db", none⟩) rfl⟩

/-- Claim C7: per message, each definition contributes the writes given by
`defWrite` — at most one call — placed right after the accumulated ones;
the call exists exactly on the success path (path ok, a first match,
successful coercion) and then carries the first matched value through
coercion and the expression step; no match or failed coercion contributes
no call. -/
theorem one_write_per_definition :
    (∀ (ext : Ext) (bucket : String) (json : Json) (m : MeasurementConfig)
       (rest : List MeasurementConfig) (acc : List WriteCall),
       ∃ tail, (processDefs ext bucket json (m :: rest) acc).2 =
         acc ++ (defWrite ext bucket json m).toList ++ tail) ∧
    (∀ (ext : Ext) (bucket : String) (json : Json) (m : MeasurementConfig),
       (defWrite ext bucket json m).toList.length ≤ 1) ∧
    (∀ (ext : Ext) (bucket : String) (json : Json) (m : MeasurementConfig)
       (found val : Json) (v0 : ℚ),
       ext.findPath m.path json = Except.ok found →
       firstMatch found = some val →
       coerce ext.parseF64 val = some v0 →
       defWrite ext bucket json m =
         some ⟨m.name, finalValue ext.evalExpr m v0, bucket, m.tags⟩) ∧
    (∀ (ext : Ext) (bucket : String) (json : Json) (m : MeasurementConfig) (found : Json),
       ext.findPath m.path json = Except.ok found →
       (firstMatch found = none ∨
         ∃ val, firstMatch found = some val ∧ coerce ext.parseF64 val = none) →
       defWrite ext bucket json m = none) := by
  refine ⟨?_, ?_, ?_, ?_⟩
  · intro ext bucket json m rest acc
    cases hf : ext.findPath m.path json with
    | error s =>
      refine ⟨[], ?_⟩
      simp [processDefs, defWrite, hf]
    | ok found =>
      cases hm : firstMatch found with
      | none =>
        refine ⟨(processDefs ext bucket json rest []).2, ?_⟩
        simp only [processDefs, defWrite, hf, hm, Option.toList_none, List.append_nil]
        exact processDefs_append ext bucket json rest acc
      | some val =>
        cases hc : coerce ext.parseF64 val with
        | none =>
          refine ⟨(processDefs ext bucket json rest []).2, ?_⟩
          simp only [processDefs, defWrite, hf, hm, hc, Option.toList_none, List.append_nil]
          exact processDefs_append ext bucket json rest acc
        | some v0 =>
          by_cases hw :
              ext.writeResult ⟨m.name, finalValue ext.evalExpr m v0, bucket, m.tags⟩ = true
          · have key := processDefs_append ext bucket json rest
              (acc ++ [(⟨m.name, finalValue ext.evalExpr m v0, bucket, m.tags⟩ : WriteCall)])
            refine ⟨(processDefs ext bucket json rest []).2, ?_⟩
            simp only [processDefs, defWrite, hf, hm, hc, hw, if_true, Option.toList_some]
            rw [key]
          · refine ⟨[], ?_⟩
            simp only [processDefs, defWrite, hf, hm, hc, hw, if_false,
              Bool.false_eq_true, Option.toList_some]
            simp
  · intro ext bucket json m
    cases hf : ext.findPath m.path json with
    | error s => simp [defWrite, hf]
    | ok found =>
      cases hm : firstMatch found with
      | none => simp [defWrite, hf, hm]
      | some val =>
        cases hc : coerce ext.parseF64 val with
        | none => simp [defWrite, hf, hm, hc]
        | some v0 => simp [defWrite, hf, hm, hc]
  · intro ext bucket json m found val v0 hf hm hc
    simp [defWrite, hf, hm, hc]
  · intro ext bucket json m found hf h
    rcases h with hm | ⟨val, hm, hc⟩
    · simp [defWrite, hf, hm]
    · simp [defWrite, hf, hm, hc]

/-- Witness for `one_write_per_definition`: under `extTest` the matched
definition yields exactly the one expected call, and a no-match
definition yields none. -/
theorem one_write_per_definition_witness :
    defWrite extTest "db" (Json.obj []) mTemp = some ⟨"temperature", 7, "db", none⟩ ∧
    defWrite extTest "db" (Json.obj []) ⟨"t", "$.none", none, none⟩ = none :=
  ⟨one_write_per_definition.2.2.1 extTest "db" (Json.obj []) mTemp
      (Json.arr [Json.num 7, Json.obj []]) (Json.num 7) 7 rfl rfl rfl,
   one_write_per_definition.2.2.2 extTest "db" (Json.obj [])
      ⟨"t", "$.none", none, none⟩ (Json.arr []) rfl (Or.inl rfl)⟩

/-- Claim C8: when processing of an incoming publish fails, the loop
terminates with that error if `terminate_on_error` is set; otherwise the
error is only logged — the failed message appears exactly once at the head
of the action trace and the remaining actions are exactly those of the
remaining events, so the message is never reprocessed; and an absent
`terminate_on_error` defaults to false. -/
theorem loop_publish_failure_policy
    (ext : Ext) (config : Config) (p : List Nat) (rest : List LoopEvent) (e : ProcessError)
    (h : (process_message ext p config).1 = Except.error e) :
    (config.terminate_on_error.getD false = true →
       runLoop ext config (LoopEvent.publish p :: rest) =
         ([Action.processed p (Except.error e)], some (LoopError.processErr e))) ∧
    (config.terminate_on_error.getD false = false →
       runLoop ext config (LoopEvent.publish p :: rest) =
         (Action.processed p (Except.error e) :: (runLoop ext config rest).1,
          (runLoop ext config rest).2)) ∧
    (∀ c : Config, c.terminate_on_error = none → c.terminate_on_error.getD false = false) := by
  refine ⟨?_, ?_, ?_⟩
  · intro ht
    simp [runLoop, h, ht]
  · intro ht
    simp [runLoop, h, ht]
  · intro c hc
    simp [hc]

/-- Witness for `loop_publish_failure_policy`: `cfgFail` has no
`terminate_on_error` entry, its write fails, and the loop continues with
the next event after logging. -/
theorem loop_publish_failure_policy_witness :
    runLoop extTest cfgFail [LoopEvent.publish [], LoopEvent.otherOk] =
      (Action.processed []
          (Except.error (ProcessError.write ⟨"failme", 7, "db", none⟩)) ::
        (runLoop extTest cfgFail [LoopEvent.otherOk]).1,
       (runLoop extTest cfgFail [LoopEvent.otherOk]).2) :=
  (loop_publish_failure_policy extTest cfgFail [] [LoopEvent.otherOk]
      (ProcessError.write ⟨"failme", 7, "db", none⟩) rfl).2.1 rfl

/-- Claim C9: a transport-level poll error terminates the loop with that
error when `terminate_on_error` is set, and otherwise produces exactly a
5-second sleep before continuing; moreover every sleep the loop ever
performs is exactly 5 seconds — there is no exponential backoff, retry
count or jitter. -/
theorem loop_transport_error_policy
    (ext : Ext) (config : Config) (e : String) (rest : List LoopEvent) :
    (config.terminate_on_error.getD false = true →
       runLoop ext config (LoopEvent.connErr e :: rest) =
         ([], some (LoopError.transportErr e))) ∧
    (config.terminate_on_error.getD false = false →
       runLoop ext config (LoopEvent.connErr e :: rest) =
         (Action.sleep 5 :: (runLoop ext config rest).1,
          (runLoop ext config rest).2)) ∧
    (∀ (evs : List LoopEvent) (n : Nat),
       Action.sleep n ∈ (runLoop ext config evs).1 → n = 5) := by
  refine ⟨?_, ?_, ?_⟩
  · intro ht
    simp [runLoop, ht]
  · intro ht
    simp [runLoop, ht]
  · intro evs
    induction evs with
    | nil =>
      intro n hn
      simp [runLoop] at hn
    | cons ev tl ih =>
      intro n hn
      cases ev with
      | publish payload =>
        cases hp : (process_message ext payload config).1 with
        | ok u =>
          simp [runLoop, hp] at hn
          exact ih n hn
        | error e2 =>
          by_cases ht : config.terminate_on_error.getD false = true
          · simp [runLoop, hp, ht] at hn
          · simp [runLoop, hp, ht] at hn
            exact ih n hn
      | otherOk =>
        simp only [runLoop] at hn
        exact ih n hn
      | connErr e2 =>
        by_cases ht : config.terminate_on_error.getD false = true
        · simp [runLoop, ht] at hn
        · simp [runLoop, ht] at hn
          rcases hn with h1 | h1
          · exact h1
          · exact ih n h1

/-- Witness for `loop_transport_error_policy`: with `terminate_on_error`
set the loop stops on a transport error; without it the loop sleeps 5
seconds and goes on. -/
theorem loop_transport_error_policy_witness :
    runLoop extTest cfgTerm [LoopEvent.connErr "broken pipe"] =
      ([], some (LoopError.transportErr "broken pipe")) ∧
    runLoop extTest cfgFail [LoopEvent.connErr "broken pipe", LoopEvent.otherOk] =
      (Action.sleep 5 :: (runLoop extTest cfgFail [LoopEvent.otherOk]).1,
       (runLoop extTest cfgFail [LoopEvent.otherOk]).2) :=
  ⟨(loop_transport_error_policy extTest cfgTerm "broken pipe" []).1 rfl,
   (loop_transport_error_policy extTest cfgFail "broken pipe" [LoopEvent.otherOk]).2.1 rfl⟩

end Bridge
